import Mathlib

/-!
Verification of the KIM NLI trainer (`scripts/kim/main.py`).

This file shallowly embeds the numeric and control-flow core of the
repository: the batch preparer `prepare_data`, the masked attention
normalization of `build_model`, the LSTM step function, the `rmsprop`
optimizer, gradient clipping, the parameter-store `zipp`/`unzip` pair,
and the validation/early-stopping state machine of `train`.
Machine floats are modelled as exact reals (`ℝ`) where the code does
real arithmetic, and as exact rationals (`ℚ`) where only 0/1 masks and
feature values matter; `int64` ids are modelled as `ℤ`.
-/

namespace KIM

/-! ### Parameter store: `zipp` / `unzip` (main.py lines 27-37)

An `OrderedDict` of named tensors is modelled as an association list
`List (String × α)`; a tensor is an opaque `α`.  `set_value` on a Theano
shared variable replaces the stored value in place (the source raises a
`KeyError` when the key is absent; the theorems below only use stores
that contain every assigned key, so the fall-through `[]` branch is
unreachable there). -/

def set_value {α : Type} (tp : List (String × α)) (k : String) (v : α) :
    List (String × α) :=
  match tp with
  | [] => []
  | (k', v') :: r => if k' = k then (k', v) :: r else (k', v') :: set_value r k v

/-- Source `zipp(params, tparams)`: for each `(kk, vv)` in `params`, do
`tparams[kk].set_value(vv)` (main.py lines 27-29). -/
def zipp {α : Type} (params tparams : List (String × α)) : List (String × α) :=
  params.foldl (fun tp kv => set_value tp kv.1 kv.2) tparams

/-- Source `unzip(zipped)`: a fresh `OrderedDict` holding `vv.get_value()` for each
entry, in the store's order (main.py lines 33-37); `get_value` returns the
stored tensor. -/
def unzip {α : Type} (zipped : List (String × α)) : List (String × α) :=
  zipped.map (fun kv => (kv.1, kv.2))

/-! ### rmsprop optimizer (main.py lines 707-737)

All updates are elementwise over tensors, so one real coordinate suffices.
`f_grad_shared` performs the `zgup + rgup + rg2up` updates; `f_update`
performs `updir_new + param_up`.  The `lr` input of `f_update` is declared
(`on_unused_input='ignore'`) but never read. -/

structure RmspropSt where
  zg : ℝ   -- zipped_grads
  rg : ℝ   -- running_grads
  rg2 : ℝ  -- running_grads2
  ud : ℝ   -- updir
  p : ℝ    -- the parameter

/-- Source `f_grad_shared`: `zg ← g`, `rg ← 0.95·rg + 0.05·g`,
`rg2 ← 0.95·rg2 + 0.05·g²` (main.py lines 718-724). -/
def rmsprop_f_grad_shared (g : ℝ) (s : RmspropSt) : RmspropSt :=
  { s with
    zg := g
    rg := 0.95 * s.rg + 0.05 * g
    rg2 := 0.95 * s.rg2 + 0.05 * g ^ 2 }

/-- Source `f_update(lr)`: `ud_new = 0.9·ud − 1e-4·zg / sqrt(rg2 − rg² + 1e-4)`;
`ud ← ud_new`, `p ← p + ud_new` (main.py lines 726-735).  Theano computes
all right-hand sides from the pre-update state.  `lr` is accepted and
ignored. -/
noncomputable def rmsprop_f_update (lr : ℝ) (s : RmspropSt) : RmspropSt :=
  let udn := 0.9 * s.ud - 1e-4 * s.zg / Real.sqrt (s.rg2 - s.rg ^ 2 + 1e-4)
  { s with ud := udn, p := s.p + udn }

/-! ### Gradient clipping (main.py lines 889-898) -/

/-- The gradient transformation applied in `train` when a clipping
threshold is configured: with `g2 = Σ g²` over every gradient entry,
each entry becomes `switch(g2 > clip_c², g / sqrt(g2) * clip_c, g)`;
with `clip_c ≤ 0` the gradients pass through untouched. -/
noncomputable def clip_grads (clip_c : ℝ) (grads : List ℝ) : List ℝ :=
  if 0 < clip_c then
    let g2 := (grads.map (fun g => g ^ 2)).sum
    grads.map (fun g => if clip_c ^ 2 < g2 then g / Real.sqrt g2 * clip_c else g)
  else grads

/-! ### Non-finite loss handling (main.py lines 957-961 and 1023-1024)

A float that may be non-finite is modelled by `FVal`; the two checks in
the training loop are translated directly: a non-finite per-update cost
makes `train` print and `return None` (abort); a NaN validation error
runs `pdb.set_trace()` (an interactive debugger trap, after which the
loop continues), and an infinite validation error is not checked at all. -/

inductive FVal where
  | fin (q : ℚ)
  | nan
  | inf
  | neginf
deriving DecidableEq

def isnan : FVal → Bool
  | .nan => true
  | _ => false

def isinf : FVal → Bool
  | .inf => true
  | .neginf => true
  | _ => false

inductive StepOutcome where
  | proceed        -- keep training
  | abortTraining  -- `return None`
  | debugTrap      -- `pdb.set_trace()`
deriving DecidableEq

/-- Source check `if numpy.isnan(cost) or numpy.isinf(cost)` then `return None`
(main.py lines 959-961). -/
def cost_check (c : FVal) : StepOutcome :=
  if isnan c || isinf c then .abortTraining else .proceed

/-- Source check `if numpy.isnan(valid_err)` then `pdb.set_trace()` (main.py lines 1023-1024). -/
def valid_err_check (e : FVal) : StepOutcome :=
  if isnan e then .debugTrap else .proceed

/-! ### Batch preparation: `prepare_data` (main.py lines 200-257)

Token-id and lemma-id sequences are `List ℤ` (int64), labels `ℤ`,
knowledge feature values `ℚ` (exact float32 contents).  The two-level
dictionary `kb_dict` (`s in kb_dict`, then `t in kb_dict[s]`) is a
two-level partial map.  numpy arrays are total functions out of their
index space, zero everywhere that was never assigned (numpy.zeros
initialization); each slice assignment of the per-example loop becomes
one functional update, and the loop itself is a structural recursion
over the zipped example list, exactly as `enumerate(zip(...))` walks it. -/

abbrev KBDict : Type := ℤ → Option (ℤ → Option (List ℚ))

/-- Lookup `s in kb_dict and t in kb_dict[s]` resolved to the stored feature
vector. -/
def kb_lookup (kbd : KBDict) (s t : ℤ) : Option (List ℚ) :=
  match kbd s with
  | some d => d t
  | none => none

/-- One row of `zip(seqs_x, seqs_y, seqs_x_lemma, seqs_y_lemma, labels)`:
`(s_x, s_y, s_xl, s_yl, ll)`. -/
abbrev Ex : Type := List ℤ × List ℤ × List ℤ × List ℤ × ℤ

def exDefault : Ex := ([], [], [], [], 0)

/-- Python `zip` over the five parallel lists: truncates at the shortest. -/
def zip5 {A B C D E : Type} :
    List A → List B → List C → List D → List E → List (A × B × C × D × E)
  | a :: as_, b :: bs, c :: cs, d :: ds, e :: es =>
      (a, b, c, d, e) :: zip5 as_ bs cs ds es
  | _, _, _, _, _ => []

/-- The eight arrays allocated by `prepare_data` (main.py lines 227-234),
as total functions; index order follows the source
(`x[t, idx]`, `kb_x[sid, idx, tid, k]`, `kb_att[sid, idx, tid]`). -/
structure PrepArrays where
  x : ℕ → ℕ → ℤ
  x_mask : ℕ → ℕ → ℚ
  y : ℕ → ℕ → ℤ
  y_mask : ℕ → ℕ → ℚ
  l : ℕ → ℤ
  kb_x : ℕ → ℕ → ℕ → ℕ → ℚ
  kb_y : ℕ → ℕ → ℕ → ℕ → ℚ
  kb_att : ℕ → ℕ → ℕ → ℚ

/-- Arrays as by `numpy.zeros(...)`, all eight of them. -/
def zeroArrays : PrepArrays :=
  { x := fun _ _ => 0
    x_mask := fun _ _ => 0
    y := fun _ _ => 0
    y_mask := fun _ _ => 0
    l := fun _ => 0
    kb_x := fun _ _ _ _ => 0
    kb_y := fun _ _ _ _ => 0
    kb_att := fun _ _ _ => 0 }

/-- The body of `for idx, [s_x, s_y, s_xl, s_yl, ll] in enumerate(zip(...))`
(main.py lines 236-254): writes column `idx` of every array.  The slice
assignments `x[:len, idx] = s_x`, `x_mask[:len, idx] = 1.` and the nested
`kb_x[sid, idx, tid, :] = kb_dict[s][t]` / `kb_att[sid, idx, tid] = 1.`
loops (each cell written at most once) are rendered as guarded pointwise
updates of the respective array. -/
def writeExample (kbd : KBDict) (idx : ℕ) (e : Ex) (A : PrepArrays) : PrepArrays :=
  let s_x := e.1
  let s_y := e.2.1
  let s_xl := e.2.2.1
  let s_yl := e.2.2.2.1
  let ll := e.2.2.2.2
  { x := fun t i => if i = idx ∧ t < s_x.length then s_x.getD t 0 else A.x t i
    x_mask := fun t i => if i = idx ∧ t < s_x.length then 1 else A.x_mask t i
    y := fun t i => if i = idx ∧ t < s_y.length then s_y.getD t 0 else A.y t i
    y_mask := fun t i => if i = idx ∧ t < s_y.length then 1 else A.y_mask t i
    l := fun i => if i = idx then ll else A.l i
    kb_x := fun sid i tid k =>
      if i = idx ∧ sid < s_xl.length ∧ tid < s_yl.length ∧
          (kb_lookup kbd (s_xl.getD sid 0) (s_yl.getD tid 0)).isSome then
        ((kb_lookup kbd (s_xl.getD sid 0) (s_yl.getD tid 0)).getD []).getD k 0
      else A.kb_x sid i tid k
    kb_y := fun sid i tid k =>
      if i = idx ∧ sid < s_yl.length ∧ tid < s_xl.length ∧
          (kb_lookup kbd (s_yl.getD sid 0) (s_xl.getD tid 0)).isSome then
        ((kb_lookup kbd (s_yl.getD sid 0) (s_xl.getD tid 0)).getD []).getD k 0
      else A.kb_y sid i tid k
    kb_att := fun sid i tid =>
      if i = idx ∧ sid < s_xl.length ∧ tid < s_yl.length ∧
          (kb_lookup kbd (s_xl.getD sid 0) (s_yl.getD tid 0)).isSome then 1
      else A.kb_att sid i tid }

/-- The example loop, `idx` counting up as `enumerate` does. -/
def writeAll (kbd : KBDict) (idx : ℕ) (exs : List Ex) (A : PrepArrays) : PrepArrays :=
  match exs with
  | [] => A
  | e :: r => writeAll kbd (idx + 1) r (writeExample kbd idx e A)

/-- The arrays produced by the main loop of `prepare_data` from the
(already filtered) sequences. -/
def prep_arrays (sx sy sxl syl : List (List ℤ)) (labels : List ℤ)
    (kbd : KBDict) : PrepArrays :=
  writeAll kbd 0 (zip5 sx sy sxl syl labels) zeroArrays

/-- A Python value returned in the result tuple of `prepare_data`:
either `None` or one of the array shapes. -/
inductive PyVal where
  | none : PyVal
  | arrI : (ℕ → ℕ → ℤ) → PyVal
  | arrQ : (ℕ → ℕ → ℚ) → PyVal
  | arr4 : (ℕ → ℕ → ℕ → ℕ → ℚ) → PyVal
  | arr3 : (ℕ → ℕ → ℕ → ℚ) → PyVal
  | arrL : (ℕ → ℤ) → PyVal

/-- The 8-tuple `return x, x_mask, kb_x, y, y_mask, kb_y, kb_att, l`
(main.py line 257). -/
def batchList (A : PrepArrays) : List PyVal :=
  [.arrI A.x, .arrQ A.x_mask, .arr4 A.kb_x,
   .arrI A.y, .arrQ A.y_mask, .arr4 A.kb_y, .arr3 A.kb_att, .arrL A.l]

/-- Source `prepare_data` (main.py lines 200-257).  When `maxlen` is given, the
premise/hypothesis pairs are filtered (`l_x < maxlen and l_y < maxlen`,
lines 204-218) — note that the source filters only `seqs_x`/`seqs_y`,
never `seqs_x_lemma`, `seqs_y_lemma` or `labels` — and an
empty-after-filtering batch returns the 7-element tuple
`None, None, None, None, None, None, None` (line 221). The `dim_kb`
option fixes the allocated knowledge-feature extent and is carried for
fidelity. -/
def prepare_data (sx sy sxl syl : List (List ℤ)) (labels : List ℤ)
    (dim_kb : ℕ) (kbd : KBDict) (maxlen : Option ℕ) : List PyVal :=
  match maxlen with
  | Option.none => batchList (prep_arrays sx sy sxl syl labels kbd)
  | Option.some m =>
      let kept := (sx.zip sy).filter fun p => decide (p.1.length < m ∧ p.2.length < m)
      let sx' := kept.map Prod.fst
      let sy' := kept.map Prod.snd
      if sx'.length < 1 ∨ sy'.length < 1 then
        [.none, .none, .none, .none, .none, .none, .none]
      else batchList (prep_arrays sx' sy' sxl syl labels kbd)

/-! ### The training loop's consumption of a prepared batch
(main.py lines 939-944)

`x1, x1_mask, x1_kb, x2, x2_mask, x2_kb, kb_att, y = prepare_data(...)`
destructures the returned tuple into eight names — a tuple of any other
arity raises `ValueError` before the `if x1 is None` test can run.  The
sentinel test then skips the update and decrements `uidx`. -/

inductive TrainBatchOutcome where
  | valueError            -- tuple unpacking failed, exception propagates
  | skipped (uidx : ℕ)    -- `uidx -= 1; continue`
  | updated (uidx : ℕ)    -- proceed to the gradient step
deriving DecidableEq

def train_batch_step (uidx : ℕ) (res : List PyVal) : TrainBatchOutcome :=
  match res with
  | [x1, _, _, _, _, _, _, _] =>
      match x1 with
      | PyVal.none => .skipped (uidx - 1)
      | _ => .updated uidx
  | _ => .valueError

/-! ### Attention normalization in `build_model` (main.py lines 496-517)

`ctx1`/`ctx2` are the encoder outputs (`#step × #sample × #dimctx`),
masked at lines 496-497; `weight_matrix[i, p, h]` is the batched dot
product plus `attention_lambda * kb_att` (lines 500-502).
`weight_matrix_1 = exp(wm - wm.max(1))` (max over the premise axis),
dimshuffled to `(p, h, i)` and multiplied by the premise mask
`x1_mask[:, None, :]`; `alpha` divides by the sum over axis 0, the
premise axis.  `weight_matrix_2 = exp(wm - wm.max(2))` (max over the
hypothesis axis), multiplied by `x2_mask[None, :, :]`; `beta` divides by
the sum over axis 1, the hypothesis axis (lines 504-512). -/

structure AttnIn where
  Lp : ℕ                      -- n_timesteps_x1 (premise steps)
  Lh : ℕ                      -- n_timesteps_x2 (hypothesis steps)
  dctx : ℕ                    -- context dimension (2 * dim)
  ctx1 : ℕ → ℕ → ℕ → ℝ        -- premise encoder output [p, i, k]
  ctx2 : ℕ → ℕ → ℕ → ℝ        -- hypothesis encoder output [h, i, k]
  x1_mask : ℕ → ℕ → ℝ
  x2_mask : ℕ → ℕ → ℝ
  attention_lambda : ℝ
  kb_att : ℕ → ℕ → ℕ → ℝ      -- [p, i, h]

/-- Scores `weight_matrix[i, p, h]` after the knowledge bias (lines 496-502). -/
noncomputable def weight_matrix (a : AttnIn) (i p h : ℕ) : ℝ :=
  (∑ k in Finset.range a.dctx,
      (a.ctx1 p i k * a.x1_mask p i) * (a.ctx2 h i k * a.x2_mask h i)) +
    a.attention_lambda * a.kb_att p i h

/-- numpy `max` along one axis of length `n` (requires `1 ≤ n` in numpy;
for `n = 0` this returns the junk value `f 0`). -/
def rowMax (n : ℕ) (f : ℕ → ℝ) : ℝ :=
  (List.range n).foldr (fun j acc => max (f j) acc) (f 0)

/-- Scores `weight_matrix_1[p, h, i]` after masking (lines 504, 508). -/
noncomputable def weight_matrix_1 (a : AttnIn) (p h i : ℕ) : ℝ :=
  Real.exp (weight_matrix a i p h - rowMax a.Lp (fun q => weight_matrix a i q h)) *
    a.x1_mask p i

/-- Scores `weight_matrix_2[p, h, i]` after masking (lines 505, 509). -/
noncomputable def weight_matrix_2 (a : AttnIn) (p h i : ℕ) : ℝ :=
  Real.exp (weight_matrix a i p h - rowMax a.Lh (fun u => weight_matrix a i p u)) *
    a.x2_mask h i

/-- Source `alpha = weight_matrix_1 / weight_matrix_1.sum(0)` (line 511):
normalized over the premise axis. -/
noncomputable def alpha (a : AttnIn) (p h i : ℕ) : ℝ :=
  weight_matrix_1 a p h i / ∑ q in Finset.range a.Lp, weight_matrix_1 a q h i

/-- Source `beta = weight_matrix_2 / weight_matrix_2.sum(1)` (line 512):
normalized over the hypothesis axis. -/
noncomputable def beta (a : AttnIn) (p h i : ℕ) : ℝ :=
  weight_matrix_2 a p h i / ∑ u in Finset.range a.Lh, weight_matrix_2 a p u i

/-! ### LSTM step (main.py lines 319-342)

One call of `_step(m_, x_, h_, c_)` for a single example: `x_` is the
precomputed input projection row (`state_below·W + b`), `h_`/`c_` the
previous hidden and cell state, `m_` this example's mask entry.  The
gate slices `preact[n*dim:(n+1)*dim]` are kept as explicit offset
arithmetic.  (`theano.scan` also emits `i, f, o, preact`; only `h` and
`c` feed the recurrence and the layer output.) -/

noncomputable def py_sigmoid (x : ℝ) : ℝ := 1 / (1 + Real.exp (-x))

/-- Source `preact = dot(h_, U) + x_` (lines 328-329). -/
noncomputable def lstm_preact (d : ℕ) (U : ℕ → ℕ → ℝ) (x h : ℕ → ℝ) (j : ℕ) : ℝ :=
  (∑ k in Finset.range d, h k * U k j) + x j

noncomputable def lstm_i (d : ℕ) (U : ℕ → ℕ → ℝ) (x h : ℕ → ℝ) (k : ℕ) : ℝ :=
  py_sigmoid (lstm_preact d U x h (0 * d + k))

noncomputable def lstm_f (d : ℕ) (U : ℕ → ℕ → ℝ) (x h : ℕ → ℝ) (k : ℕ) : ℝ :=
  py_sigmoid (lstm_preact d U x h (1 * d + k))

noncomputable def lstm_o (d : ℕ) (U : ℕ → ℕ → ℝ) (x h : ℕ → ℝ) (k : ℕ) : ℝ :=
  py_sigmoid (lstm_preact d U x h (2 * d + k))

noncomputable def lstm_cand (d : ℕ) (U : ℕ → ℕ → ℝ) (x h : ℕ → ℝ) (k : ℕ) : ℝ :=
  Real.tanh (lstm_preact d U x h (3 * d + k))

/-- Source `_step` (lines 327-342): returns the emitted `(h, c)` pair. -/
noncomputable def lstm_step (d : ℕ) (U : ℕ → ℕ → ℝ) (m : ℝ) (x h c : ℕ → ℝ) :
    (ℕ → ℝ) × (ℕ → ℝ) :=
  let cnew := fun k => lstm_f d U x h k * c k + lstm_i d U x h k * lstm_cand d U x h k
  let cmask := fun k => m * cnew k + (1 - m) * c k
  let hnew := fun k => lstm_o d U x h k * Real.tanh (cmask k)
  let hmask := fun k => m * hnew k + (1 - m) * h k
  (hmask, cmask)

/-! ### Validation / early-stopping state machine (main.py lines 982-1021)

Parameters are an opaque type `P`; `unzip(tparams)` snapshots them and
`zipp(best_p, tparams)` restores the snapshot.  Validation errors are
exact rationals.  `wait_N` is hardcoded to 1 at line 932. -/

def wait_N : ℕ := 1

/-- Value of `numpy.array(l).min()` for the nonempty lists this state machine
builds (junk `0` on `[]`, where numpy would raise). -/
def listMin : List ℚ → ℚ
  | [] => 0
  | [a] => a
  | a :: b :: r => min a (listMin (b :: r))

structure TrainState (P : Type) where
  history_errs : List ℚ
  best_p : Option P
  best_epoch_num : ℕ
  wait_counter : ℕ
  bad_counter : ℕ
  lrate : ℚ
  lr_change_list : List ℕ
  tparams : P
  estop : Bool

/-- One validation check (main.py lines 987, 1000-1021): append the new
error to the history; snapshot a new best (and reset the wait counter)
when `uidx == 0 or valid_err <= min(history)`; increment the wait counter
when `valid_err > min(history)`; when the wait counter reaches `wait_N`,
bump `bad_counter`, zero the wait counter, halve `lrate`, record the
epoch, and restore the best snapshot (`zipp(best_p, tparams)` — the
source would raise if `best_p` were still `None`; `Option.getD` keeps
the function total, and every theorem below supplies a snapshot);
finally set `estop` when `bad_counter > patience`. -/
def validStep {P : Type} (patience uidx eidx : ℕ) (valid_err : ℚ)
    (st : TrainState P) : TrainState P :=
  let history := st.history_errs ++ [valid_err]
  let st1 : TrainState P :=
    if uidx = 0 ∨ valid_err ≤ listMin history then
      { st with history_errs := history, best_p := some st.tparams,
                best_epoch_num := eidx, wait_counter := 0 }
    else { st with history_errs := history }
  let st2 : TrainState P :=
    if listMin history < valid_err then
      { st1 with wait_counter := st1.wait_counter + 1 }
    else st1
  let st3 : TrainState P :=
    if wait_N ≤ st2.wait_counter then
      { st2 with bad_counter := st2.bad_counter + 1, wait_counter := 0,
                 lrate := st2.lrate * (1 / 2),
                 lr_change_list := st2.lr_change_list ++ [eidx],
                 tparams := st2.best_p.getD st2.tparams }
    else st2
  if patience < st3.bad_counter then { st3 with estop := true } else st3

/-- A run of consecutive validation checks `(uidx, eidx, valid_err)`;
`break` on `estop` ends the run (main.py lines 1018-1021). -/
def runValid {P : Type} (patience : ℕ) (checks : List (ℕ × ℕ × ℚ))
    (st : TrainState P) : TrainState P :=
  match checks with
  | [] => st
  | (u, e, v) :: rest =>
      let st' := validStep patience u e v st
      if st'.estop then st' else runValid patience rest st'

/-! ### Concrete instances used by witnesses and counterexamples -/

/-- A uniform attention input: all-zero contexts, all-one masks, no
knowledge bias; two premise steps, one hypothesis step. -/
def attnUniform : AttnIn :=
  { Lp := 2, Lh := 1, dctx := 1
    ctx1 := fun _ _ _ => 0, ctx2 := fun _ _ _ => 0
    x1_mask := fun _ _ => 1, x2_mask := fun _ _ => 1
    attention_lambda := 0, kb_att := fun _ _ _ => 0 }

/-- A training state holding one prior (best) validation error and a
best snapshot. -/
def egTrainState : TrainState ℕ :=
  { history_errs := [1/2], best_p := some 7, best_epoch_num := 0
    wait_counter := 0, bad_counter := 0, lrate := 1, lr_change_list := []
    tparams := 7, estop := false }

/-- Two worsening validation checks `(uidx, eidx, valid_err)`. -/
def egChecks : List (ℕ × ℕ × ℚ) := [(100, 2, 3/4), (200, 3, 4/5)]

/-- A knowledge dictionary holding only the directed relation `1 → 2`. -/
def fwdKbd : KBDict :=
  fun s => if s = 1 then some (fun t => if t = 2 then some [9, 10] else none) else none

/-- A knowledge dictionary holding only the directed relation `2 → 1`
(hypothesis-lemma to premise-lemma, with premise lemma ids `1` and
hypothesis lemma ids `2`). -/
def revKbd : KBDict :=
  fun s => if s = 2 then some (fun t => if t = 1 then some [9] else none) else none

/-! ## Theorems -/

/-- Claim C4: the rmsprop parameter update after one
`f_grad_shared`/`f_update` round is
`p ← p + (0.9·previousUpdate − 1e-4·g / sqrt(movingVar + 1e-4))`, where
the moving averages of the gradient and squared gradient use decay 0.95
and `movingVar` is their variance estimate `rg2 − rg²`; the learning-rate
argument accepted by `f_update` has no effect on the update. -/
theorem rmsprop_update_rule (g lr lr' : ℝ) (s : RmspropSt) :
    (rmsprop_f_grad_shared g s).rg = 0.95 * s.rg + 0.05 * g ∧
    (rmsprop_f_grad_shared g s).rg2 = 0.95 * s.rg2 + 0.05 * g ^ 2 ∧
    (rmsprop_f_update lr (rmsprop_f_grad_shared g s)).p =
      s.p + (0.9 * s.ud - 1e-4 * g /
        Real.sqrt ((0.95 * s.rg2 + 0.05 * g ^ 2) -
          (0.95 * s.rg + 0.05 * g) ^ 2 + 1e-4)) ∧
    (∀ s' : RmspropSt, rmsprop_f_update lr s' = rmsprop_f_update lr' s') :=
  ⟨rfl, rfl, rfl, fun _ => rfl⟩

/-- Claim C9 counterexample: an infinite validation error is not checked
at all — the loop proceeds with further updates instead of aborting, so
a non-finite validation error does not abort training. -/
theorem valid_err_inf_not_fatal :
    valid_err_check FVal.inf = StepOutcome.proceed ∧
    StepOutcome.proceed ≠ StepOutcome.abortTraining :=
  ⟨rfl, by decide⟩

/-- Claim C9 (amended): a NaN or infinite per-update training cost aborts
training (`return None`); a NaN validation error triggers an interactive
debugger trap (`pdb.set_trace()`) rather than an abort, and an infinite
validation error is not checked, so the validation check never aborts
training. -/
theorem nonfinite_checks (c e : FVal) :
    (cost_check c = StepOutcome.abortTraining ↔ (isnan c || isinf c) = true) ∧
    (valid_err_check e = StepOutcome.debugTrap ↔ isnan e = true) ∧
    valid_err_check e ≠ StepOutcome.abortTraining := by
  cases c <;> cases e <;> simp [cost_check, valid_err_check, isnan, isinf]

/- `zipp` leaves a store's head entry alone when its key is never
assigned. -/
lemma zipp_cons_of_notmem {α : Type} :
    ∀ (ps : List (String × α)) (k : String) (v : α) (ts : List (String × α)),
      k ∉ ps.map Prod.fst →
      zipp ps ((k, v) :: ts) = (k, v) :: zipp ps ts := by
  intro ps
  induction ps with
  | nil => intro k v ts _; rfl
  | cons q qs ih =>
      intro k v ts hk
      have hq : ¬ (k = q.1) := fun h => hk (by simp [h])
      have hset : set_value ((k, v) :: ts) q.1 q.2 = (k, v) :: set_value ts q.1 q.2 := by
        simp [set_value, hq]
      show zipp qs (set_value ((k, v) :: ts) q.1 q.2) =
        (k, v) :: zipp qs (set_value ts q.1 q.2)
      rw [hset]
      exact ih k v (set_value ts q.1 q.2)
        (fun h => hk (List.mem_cons_of_mem _ h))

/- On a store with the same keys in the same order (all distinct),
`zipp` replaces every stored tensor by the pushed one. -/
lemma zipp_eq {α : Type} :
    ∀ (ps ts : List (String × α)),
      ps.map Prod.fst = ts.map Prod.fst → (ps.map Prod.fst).Nodup →
      zipp ps ts = ps := by
  intro ps
  induction ps with
  | nil =>
      intro ts h _
      cases ts with
      | nil => rfl
      | cons t ts' => simp at h
  | cons q qs ih =>
      intro ts h hnd
      cases ts with
      | nil => simp at h
      | cons t ts' =>
          simp only [List.map_cons, List.cons.injEq] at h
          simp only [List.map_cons, List.nodup_cons] at hnd
          have hset : set_value (t :: ts') q.1 q.2 = (t.1, q.2) :: ts' := by
            simp [set_value, h.1.symm]
          show zipp qs (set_value (t :: ts') q.1 q.2) = q :: qs
          rw [hset, show (t.1, q.2) = (q.1, q.2) by rw [h.1],
              zipp_cons_of_notmem qs q.1 q.2 ts' hnd.1, ih ts' h.2 hnd.2]

/-- Claim C7: pushing a parameter mapping into a matching shared-variable
store with `zipp` and pulling it back with `unzip` returns the original
mapping on every key and entry (`unzip` after `zipp` is the identity on
the parameter set). -/
theorem unzip_zipp_id {α : Type} (params tparams : List (String × α))
    (hkeys : params.map Prod.fst = tparams.map Prod.fst)
    (hnd : (params.map Prod.fst).Nodup) :
    unzip (zipp params tparams) = params := by
  rw [zipp_eq params tparams hkeys hnd]
  simp [unzip]

/-- Claim C7 witness: a concrete two-parameter round trip. -/
theorem unzip_zipp_id_witness :
    unzip (zipp [("a", (1 : ℚ)), ("b", 2)] [("a", 5), ("b", 6)]) =
      [("a", 1), ("b", 2)] :=
  unzip_zipp_id _ _ (by decide) (by decide)

/-- Claim C5: with a positive threshold `clip_c`, the gradient
transformation of `train` leaves every gradient unchanged when the
global L2 norm is at or below `clip_c`, and otherwise rescales every
gradient by `clip_c / norm`, making the post-clip global L2 norm exactly
`clip_c`. -/
theorem clip_grads_spec (clip_c : ℝ) (grads : List ℝ) (hc : 0 < clip_c) :
    (Real.sqrt ((grads.map fun g => g ^ 2).sum) ≤ clip_c →
      clip_grads clip_c grads = grads) ∧
    (clip_c < Real.sqrt ((grads.map fun g => g ^ 2).sum) →
      clip_grads clip_c grads =
        grads.map
          (fun g => g / Real.sqrt ((grads.map fun g => g ^ 2).sum) * clip_c) ∧
      Real.sqrt (((clip_grads clip_c grads).map fun g => g ^ 2).sum) = clip_c) := by
  have hS0 : 0 ≤ (grads.map fun g => g ^ 2).sum := by
    apply List.sum_nonneg
    intro x hx
    obtain ⟨g, _, rfl⟩ := List.mem_map.mp hx
    positivity
  constructor
  · intro hle
    have h2 : ¬ (clip_c ^ 2 < (grads.map fun g => g ^ 2).sum) := by
      have hs := Real.sq_sqrt hS0
      nlinarith [Real.sqrt_nonneg ((grads.map fun g => g ^ 2).sum)]
    simp only [clip_grads, if_pos hc, if_neg h2, List.map_id']
  · intro hlt
    have h2 : clip_c ^ 2 < (grads.map fun g => g ^ 2).sum := by
      have hs := Real.sq_sqrt hS0
      nlinarith [Real.sqrt_nonneg ((grads.map fun g => g ^ 2).sum)]
    have hSpos : 0 < (grads.map fun g => g ^ 2).sum := lt_of_le_of_lt (by positivity) h2
    have hmap : clip_grads clip_c grads =
        grads.map (fun g => g / Real.sqrt ((grads.map fun g => g ^ 2).sum) * clip_c) := by
      simp only [clip_grads, if_pos hc, if_pos h2]
    refine ⟨hmap, ?_⟩
    rw [hmap, List.map_map]
    have hsq : Real.sqrt ((grads.map fun g => g ^ 2).sum) ^ 2 =
        (grads.map fun g => g ^ 2).sum := Real.sq_sqrt hS0
    have hfn : ((fun g => g ^ 2) ∘
          fun g => g / Real.sqrt ((grads.map fun g => g ^ 2).sum) * clip_c) =
        fun g => g ^ 2 * (clip_c ^ 2 / (grads.map fun g => g ^ 2).sum) := by
      funext g
      show (g / Real.sqrt ((grads.map fun g => g ^ 2).sum) * clip_c) ^ 2 =
        g ^ 2 * (clip_c ^ 2 / (grads.map fun g => g ^ 2).sum)
      rw [show (g / Real.sqrt ((grads.map fun g => g ^ 2).sum) * clip_c) ^ 2 =
          g ^ 2 * clip_c ^ 2 / Real.sqrt ((grads.map fun g => g ^ 2).sum) ^ 2 by ring,
        hsq, mul_div_assoc]
    rw [hfn, List.sum_map_mul_right]
    have hcan : (grads.map fun g => g ^ 2).sum *
        (clip_c ^ 2 / (grads.map fun g => g ^ 2).sum) = clip_c ^ 2 := by
      field_simp
    rw [hcan, Real.sqrt_sq hc.le]

/-- Claim C5 witness: gradients `[3, 4]` (norm 5) against threshold 1. -/
theorem clip_grads_spec_witness :
    clip_grads 1 [3, 4] =
      [(3 : ℝ), 4].map
        (fun g => g / Real.sqrt (([(3 : ℝ), 4].map fun g => g ^ 2).sum) * 1) ∧
    Real.sqrt (((clip_grads 1 [3, 4]).map fun g => g ^ 2).sum) = 1 := by
  refine (clip_grads_spec 1 [3, 4] (by norm_num)).2 ?_
  have h25 : (([(3 : ℝ), 4].map fun g => g ^ 2).sum) = 25 := by norm_num
  rw [h25, show (25 : ℝ) = 5 ^ 2 by norm_num, Real.sqrt_sq (by norm_num : (0:ℝ) ≤ 5)]
  norm_num

/-- Claim C8: in the LSTM step, a mask entry of 0 carries the previous
hidden and cell state forward unchanged, while a mask entry of 1 applies
the standard gated-recurrence update. -/
theorem lstm_step_masking (d : ℕ) (U : ℕ → ℕ → ℝ) (m : ℝ) (x h c : ℕ → ℝ) :
    (m = 0 → lstm_step d U m x h c = (h, c)) ∧
    (m = 1 → lstm_step d U m x h c =
      (fun k => lstm_o d U x h k *
          Real.tanh (lstm_f d U x h k * c k + lstm_i d U x h k * lstm_cand d U x h k),
       fun k => lstm_f d U x h k * c k + lstm_i d U x h k * lstm_cand d U x h k)) := by
  constructor
  · rintro rfl
    simp only [lstm_step, Prod.mk.injEq]
    constructor <;> funext k <;> ring
  · rintro rfl
    simp only [lstm_step, Prod.mk.injEq]
    constructor <;> funext k <;> norm_num

/-- Claim C8 witness: a concrete zero-mask step carries `(h, c) = (1, 1)`
forward. -/
theorem lstm_step_masking_witness :
    lstm_step 1 (fun _ _ => 0) 0 (fun _ => 0) (fun _ => 1) (fun _ => 1) =
      ((fun _ => 1), (fun _ => 1)) :=
  (lstm_step_masking 1 (fun _ _ => 0) 0 (fun _ => 0) (fun _ => 1) (fun _ => 1)).1 rfl

/-- Claim C2 (amended): with 0/1 masks and at least one valid position on
each side, each fixed-hypothesis-position column of `alpha` sums to 1
over the premise positions (and `alpha` vanishes at masked premise
positions), while each fixed-premise-position row of `beta` sums to 1
over the hypothesis positions (and `beta` vanishes at masked hypothesis
positions): each softmax subtracts the per-axis maximum before
exponentiating and renormalizes only over the valid positions of the
axis it normalizes — `alpha` normalizes over the premise axis and `beta`
over the hypothesis axis, not the other way around. -/
theorem attention_row_sums (a : AttnIn) (i : ℕ)
    (hm1 : ∀ p, a.x1_mask p i = 0 ∨ a.x1_mask p i = 1)
    (hm2 : ∀ h, a.x2_mask h i = 0 ∨ a.x2_mask h i = 1)
    (hv1 : ∃ p, p < a.Lp ∧ a.x1_mask p i = 1)
    (hv2 : ∃ h, h < a.Lh ∧ a.x2_mask h i = 1) :
    (∀ h, ∑ q in Finset.range a.Lp, alpha a q h i = 1) ∧
    (∀ p h, a.x1_mask p i = 0 → alpha a p h i = 0) ∧
    (∀ p, ∑ u in Finset.range a.Lh, beta a p u i = 1) ∧
    (∀ p h, a.x2_mask h i = 0 → beta a p h i = 0) := by
  have key1 : ∀ h, 0 < ∑ q in Finset.range a.Lp, weight_matrix_1 a q h i := by
    intro h
    obtain ⟨p0, hp0, hm⟩ := hv1
    apply Finset.sum_pos'
    · intro q _
      unfold weight_matrix_1
      rcases hm1 q with h0 | h1
      · rw [h0, mul_zero]
      · rw [h1, mul_one]
        exact (Real.exp_pos _).le
    · refine ⟨p0, Finset.mem_range.mpr hp0, ?_⟩
      unfold weight_matrix_1
      rw [hm, mul_one]
      exact Real.exp_pos _
  have key2 : ∀ p, 0 < ∑ u in Finset.range a.Lh, weight_matrix_2 a p u i := by
    intro p
    obtain ⟨h0, hh0, hm⟩ := hv2
    apply Finset.sum_pos'
    · intro u _
      unfold weight_matrix_2
      rcases hm2 u with h0' | h1'
      · rw [h0', mul_zero]
      · rw [h1', mul_one]
        exact (Real.exp_pos _).le
    · refine ⟨h0, Finset.mem_range.mpr hh0, ?_⟩
      unfold weight_matrix_2
      rw [hm, mul_one]
      exact Real.exp_pos _
  refine ⟨?_, ?_, ?_, ?_⟩
  · intro h
    unfold alpha
    rw [← Finset.sum_div]
    exact div_self (ne_of_gt (key1 h))
  · intro p h h0
    unfold alpha weight_matrix_1
    rw [h0, mul_zero, zero_div]
  · intro p
    unfold beta
    rw [← Finset.sum_div]
    exact div_self (ne_of_gt (key2 p))
  · intro p h h0
    unfold beta weight_matrix_2
    rw [h0, mul_zero, zero_div]

/- Evaluation helpers on the uniform attention instance. -/
lemma rowMax_const_zero (n : ℕ) : rowMax n (fun _ => (0 : ℝ)) = 0 := by
  unfold rowMax
  induction List.range n with
  | nil => rfl
  | cons a l ih => simp [ih]

lemma attnUniform_wm (i p h : ℕ) : weight_matrix attnUniform i p h = 0 := by
  simp [weight_matrix, attnUniform]

lemma attnUniform_wm1 (p h i : ℕ) : weight_matrix_1 attnUniform p h i = 1 := by
  have hz : (fun q => weight_matrix attnUniform i q h) = fun _ => (0 : ℝ) := by
    funext q; exact attnUniform_wm i q h
  unfold weight_matrix_1
  rw [attnUniform_wm, hz]
  show Real.exp (0 - rowMax attnUniform.Lp fun _ => (0:ℝ)) * attnUniform.x1_mask p i = 1
  rw [rowMax_const_zero, sub_zero, Real.exp_zero]
  simp [attnUniform]

lemma attnUniform_alpha (p h i : ℕ) : alpha attnUniform p h i = 1 / 2 := by
  unfold alpha
  have hs : ∑ q in Finset.range attnUniform.Lp, weight_matrix_1 attnUniform q h i = 2 := by
    have : attnUniform.Lp = 2 := rfl
    rw [this]
    rw [Finset.sum_congr rfl fun q _ => attnUniform_wm1 q h i]
    simp
  rw [hs, attnUniform_wm1]

/-- Claim C2 counterexample: on the uniform two-premise-step /
one-hypothesis-step batch, every position is valid, yet the attention
weights `alpha[p, ·]` at premise position `p = 0` sum to 1/2 over the
(single, valid) hypothesis position — not 1 within 1e-5.  (`alpha` is
normalized over the premise axis in the code, not the hypothesis axis.) -/
theorem alpha_premise_row_sum_ne_one :
    (∑ h in Finset.range attnUniform.Lh, alpha attnUniform 0 h 0) = 1 / 2 ∧
    ¬ |(∑ h in Finset.range attnUniform.Lh, alpha attnUniform 0 h 0) - 1| ≤ 1e-5 := by
  have hsum : (∑ h in Finset.range attnUniform.Lh, alpha attnUniform 0 h 0) = 1 / 2 := by
    have : attnUniform.Lh = 1 := rfl
    rw [this, Finset.sum_range_one, attnUniform_alpha]
  refine ⟨hsum, ?_⟩
  rw [hsum]
  rw [show |(1 : ℝ) / 2 - 1| = 1 / 2 by rw [abs_of_nonpos (by norm_num)]; norm_num]
  norm_num

/-- Claim C2 witness (for the amended theorem): the uniform batch — the
column sums of `alpha` and the row sums of `beta` are 1. -/
theorem attention_row_sums_witness :
    (∀ h, ∑ q in Finset.range attnUniform.Lp, alpha attnUniform q h 0 = 1) ∧
    (∀ p h, attnUniform.x1_mask p 0 = 0 → alpha attnUniform p h 0 = 0) ∧
    (∀ p, ∑ u in Finset.range attnUniform.Lh, beta attnUniform p u 0 = 1) ∧
    (∀ p h, attnUniform.x2_mask h 0 = 0 → beta attnUniform p h 0 = 0) :=
  attention_row_sums attnUniform 0 (fun _ => Or.inr rfl) (fun _ => Or.inr rfl)
    ⟨0, by decide, rfl⟩ ⟨0, by decide, rfl⟩

/- `min` of a nonempty history extended by one error. -/
lemma listMin_append (h : List ℚ) (v : ℚ) (hne : h ≠ []) :
    listMin (h ++ [v]) = min (listMin h) v := by
  induction h with
  | nil => cases hne rfl
  | cons a t ih =>
      cases t with
      | nil => simp [listMin]
      | cons b r =>
          have ht := ih (by simp)
          show listMin (a :: ((b :: r) ++ [v])) = min (listMin (a :: b :: r)) v
          have h1 : listMin (a :: ((b :: r) ++ [v])) =
              min a (listMin ((b :: r) ++ [v])) := rfl
          rw [h1, ht]
          show min a (min (listMin (b :: r)) v) = min (min a (listMin (b :: r))) v
          rw [min_assoc]

/- Field values of one validation check on a strictly-worse error when
the wait counter is zero: the wait counter trips (`wait_N = 1`), so the
learning rate halves, the best snapshot is restored, and the bad counter
advances. -/
lemma validStep_worsen_fields {P : Type} (patience uidx eidx : ℕ) (verr : ℚ)
    (st : TrainState P)
    (hu : uidx ≠ 0) (hne : st.history_errs ≠ [])
    (hworse : listMin st.history_errs < verr) (hwait : st.wait_counter = 0) :
    (validStep patience uidx eidx verr st).history_errs
        = st.history_errs ++ [verr] ∧
    (validStep patience uidx eidx verr st).best_p = st.best_p ∧
    (validStep patience uidx eidx verr st).wait_counter = 0 ∧
    (validStep patience uidx eidx verr st).bad_counter = st.bad_counter + 1 ∧
    (validStep patience uidx eidx verr st).lrate = st.lrate * (1 / 2) ∧
    (validStep patience uidx eidx verr st).lr_change_list
        = st.lr_change_list ++ [eidx] ∧
    (validStep patience uidx eidx verr st).tparams
        = st.best_p.getD st.tparams ∧
    (validStep patience uidx eidx verr st).estop
        = (if patience < st.bad_counter + 1 then true else st.estop) := by
  have hmin : listMin (st.history_errs ++ [verr]) = listMin st.history_errs := by
    rw [listMin_append _ _ hne]
    exact min_eq_left hworse.le
  have hc1 : ¬ (uidx = 0 ∨ verr ≤ listMin (st.history_errs ++ [verr])) := by
    refine not_or.mpr ⟨hu, ?_⟩
    rw [hmin]
    exact not_le.mpr hworse
  have hc2 : listMin (st.history_errs ++ [verr]) < verr := by
    rw [hmin]; exact hworse
  simp only [validStep, if_neg hc1, if_pos hc2, hwait]
  rw [if_pos (by norm_num [wait_N] : wait_N ≤ 0 + 1)]
  by_cases hp : patience < st.bad_counter + 1
  · rw [if_pos hp]
    simp [hp]
  · rw [if_neg hp]
    simp [hp]

/- A run of strictly-worsening checks with a best snapshot in hand:
every check trips the wait counter, so the run performs one halving per
check and stops (by patience) exactly at the last one. -/
lemma runValid_worsen {P : Type} (patience : ℕ) (p0 : P) :
    ∀ (checks : List (ℕ × ℕ × ℚ)) (st : TrainState P),
      st.estop = false → st.wait_counter = 0 → st.best_p = some p0 →
      st.history_errs ≠ [] →
      (∀ c ∈ checks, c.1 ≠ 0 ∧ listMin st.history_errs < c.2.2) →
      st.bad_counter + checks.length = patience + 1 →
      checks ≠ [] →
      (runValid patience checks st).estop = true ∧
      (runValid patience checks st).bad_counter = patience + 1 ∧
      (runValid patience checks st).lrate = st.lrate * (1 / 2) ^ checks.length ∧
      (runValid patience checks st).lr_change_list
          = st.lr_change_list ++ checks.map (fun c => c.2.1) ∧
      (runValid patience checks st).tparams = p0 := by
  intro checks
  induction checks with
  | nil => intro st _ _ _ _ _ _ hnil; cases hnil rfl
  | cons ch rest ih =>
      rintro st hestop hwait hbp hhist hall hcount _
      obtain ⟨u, e, v⟩ := ch
      have hch := hall (u, e, v) (List.mem_cons_self _ _)
      obtain ⟨hst1, hst2, hst3, hst4, hst5, hst6, hst7, hst8⟩ :=
        validStep_worsen_fields patience u e v st hch.1 hhist hch.2 hwait
      have hmin' : listMin (validStep patience u e v st).history_errs
          = listMin st.history_errs := by
        rw [hst1, listMin_append _ _ hhist]
        exact min_eq_left hch.2.le
      simp only [runValid]
      cases rest with
      | nil =>
          have hbad : st.bad_counter = patience := by
            simpa using hcount
          have hp : patience < st.bad_counter + 1 := by omega
          have hstp : (validStep patience u e v st).estop = true := by
            rw [hst8, if_pos hp]
          rw [if_pos hstp]
          refine ⟨hstp, ?_, ?_, ?_, ?_⟩
          · rw [hst4, hbad]
          · rw [hst5]
            norm_num
          · rw [hst6]
            rfl
          · rw [hst7, hbp]
            rfl
      | cons r rs =>
          have hple : ¬ (patience < st.bad_counter + 1) := by
            simp only [List.length_cons] at hcount
            omega
          have hstp : (validStep patience u e v st).estop = false := by
            rw [hst8, if_neg hple]
            exact hestop
          rw [if_neg (show ¬ ((validStep patience u e v st).estop = true) by
            rw [hstp]; exact Bool.false_ne_true)]
          have hrec := ih (validStep patience u e v st) hstp hst3
            (hst2.trans hbp)
            (by rw [hst1]; simp)
            (fun c hc => ⟨(hall c (List.mem_cons_of_mem _ hc)).1,
              by rw [hmin']; exact (hall c (List.mem_cons_of_mem _ hc)).2⟩)
            (by
              rw [hst4]
              simp only [List.length_cons] at hcount ⊢
              omega)
            (by simp)
          obtain ⟨g1, g2, g3, g4, g5⟩ := hrec
          refine ⟨g1, g2, ?_, ?_, g5⟩
          · rw [g3, hst5]
            simp only [List.length_cons]
            ring
          · rw [g4, hst6]
            simp

/-- Claim C6: in a run whose every validation check is strictly worse
than the best recorded error (with a best snapshot in hand and the wait
counter at zero), each check increments the wait counter to the
threshold `wait_N = 1`, so each check halves the learning rate, restores
the best snapshot, resets the wait counter and increments the bad
counter; a run of `patience + 1` such checks performs exactly
`patience + 1` halvings (recording `patience + 1` learning-rate-change
epochs) and then stops with the early-stop (converged-by-patience)
outcome. -/
theorem early_stop_after_patience {P : Type} (patience : ℕ) (p0 : P)
    (checks : List (ℕ × ℕ × ℚ)) (st : TrainState P)
    (hestop : st.estop = false) (hwait : st.wait_counter = 0)
    (hbad : st.bad_counter = 0) (hbp : st.best_p = some p0)
    (hhist : st.history_errs ≠ [])
    (hall : ∀ c ∈ checks, c.1 ≠ 0 ∧ listMin st.history_errs < c.2.2)
    (hlen : checks.length = patience + 1) :
    (runValid patience checks st).estop = true ∧
    (runValid patience checks st).bad_counter = patience + 1 ∧
    (runValid patience checks st).lrate = st.lrate * (1 / 2) ^ (patience + 1) ∧
    (runValid patience checks st).lr_change_list
        = st.lr_change_list ++ checks.map (fun c => c.2.1) ∧
    (runValid patience checks st).lr_change_list.length
        = st.lr_change_list.length + (patience + 1) ∧
    (runValid patience checks st).tparams = p0 := by
  have hne : checks ≠ [] := by
    intro h; rw [h] at hlen; simp at hlen
  obtain ⟨g1, g2, g3, g4, g5⟩ := runValid_worsen patience p0 checks st hestop hwait
    hbp hhist hall (by omega) hne
  refine ⟨g1, g2, ?_, g4, ?_, g5⟩
  · rw [g3, hlen]
  · rw [g4]
    simp [hlen]

/- ### Characterization of the arrays built by `prepare_data` -/

lemma zip5_length :
    ∀ (sx sy sxl syl : List (List ℤ)) (labels : List ℤ) (n : ℕ),
      sx.length = n → sy.length = n → sxl.length = n → syl.length = n →
      labels.length = n → (zip5 sx sy sxl syl labels).length = n := by
  intro sx
  induction sx with
  | nil =>
      intro sy sxl syl labels n h1 _ _ _ _
      rw [← h1]; rfl
  | cons a as_ ih =>
      intro sy sxl syl labels n h1 h2 h3 h4 h5
      cases sy with
      | nil => exact absurd (h1.trans h2.symm) (by simp)
      | cons b bs =>
      cases sxl with
      | nil => exact absurd (h1.trans h3.symm) (by simp)
      | cons c cs =>
      cases syl with
      | nil => exact absurd (h1.trans h4.symm) (by simp)
      | cons d ds =>
      cases labels with
      | nil => exact absurd (h1.trans h5.symm) (by simp)
      | cons l0 ls =>
      cases n with
      | zero => simp at h1
      | succ n' =>
          show (zip5 as_ bs cs ds ls).length + 1 = n' + 1
          rw [ih bs cs ds ls n' (by simpa using h1) (by simpa using h2)
            (by simpa using h3) (by simpa using h4) (by simpa using h5)]

lemma zip5_getD :
    ∀ (sx sy sxl syl : List (List ℤ)) (labels : List ℤ) (i : ℕ),
      i < sx.length → i < sy.length → i < sxl.length → i < syl.length →
      i < labels.length →
      (zip5 sx sy sxl syl labels).getD i exDefault =
        (sx.getD i [], sy.getD i [], sxl.getD i [], syl.getD i [],
          labels.getD i 0) := by
  intro sx
  induction sx with
  | nil => intro _ _ _ _ i h1 _ _ _ _; simp at h1
  | cons a as_ ih =>
      intro sy sxl syl labels i h1 h2 h3 h4 h5
      cases sy with
      | nil => simp at h2
      | cons b bs =>
      cases sxl with
      | nil => simp at h3
      | cons c cs =>
      cases syl with
      | nil => simp at h4
      | cons d ds =>
      cases labels with
      | nil => simp at h5
      | cons l0 ls =>
      cases i with
      | zero => rfl
      | succ i' =>
          show (zip5 as_ bs cs ds ls).getD i' exDefault = _
          simp only [List.getD_cons_succ]
          exact ih bs cs ds ls i' (by simpa using h1) (by simpa using h2)
            (by simpa using h3) (by simpa using h4) (by simpa using h5)

/- A write to one column leaves every other column of every array
untouched. -/
lemma writeExample_frame (kbd : KBDict) (idx : ℕ) (e : Ex) (A : PrepArrays)
    (i : ℕ) (hne : i ≠ idx) :
    (∀ t, (writeExample kbd idx e A).x t i = A.x t i) ∧
    (∀ t, (writeExample kbd idx e A).x_mask t i = A.x_mask t i) ∧
    (∀ t, (writeExample kbd idx e A).y t i = A.y t i) ∧
    (∀ t, (writeExample kbd idx e A).y_mask t i = A.y_mask t i) ∧
    (writeExample kbd idx e A).l i = A.l i ∧
    (∀ sid tid k, (writeExample kbd idx e A).kb_x sid i tid k
        = A.kb_x sid i tid k) ∧
    (∀ sid tid k, (writeExample kbd idx e A).kb_y sid i tid k
        = A.kb_y sid i tid k) ∧
    (∀ sid tid, (writeExample kbd idx e A).kb_att sid i tid
        = A.kb_att sid i tid) := by
  refine ⟨?_, ?_, ?_, ?_, ?_, ?_, ?_, ?_⟩ <;> intros <;>
    simp [writeExample, hne]

/- The example loop never touches columns below its starting index. -/
lemma writeAll_frame (kbd : KBDict) :
    ∀ (exs : List Ex) (idx0 : ℕ) (A : PrepArrays) (i : ℕ), i < idx0 →
      (∀ t, (writeAll kbd idx0 exs A).x t i = A.x t i) ∧
      (∀ t, (writeAll kbd idx0 exs A).x_mask t i = A.x_mask t i) ∧
      (∀ t, (writeAll kbd idx0 exs A).y t i = A.y t i) ∧
      (∀ t, (writeAll kbd idx0 exs A).y_mask t i = A.y_mask t i) ∧
      (writeAll kbd idx0 exs A).l i = A.l i ∧
      (∀ sid tid k, (writeAll kbd idx0 exs A).kb_x sid i tid k
          = A.kb_x sid i tid k) ∧
      (∀ sid tid k, (writeAll kbd idx0 exs A).kb_y sid i tid k
          = A.kb_y sid i tid k) ∧
      (∀ sid tid, (writeAll kbd idx0 exs A).kb_att sid i tid
          = A.kb_att sid i tid) := by
  intro exs
  induction exs with
  | nil =>
      intro idx0 A i _
      exact ⟨fun _ => rfl, fun _ => rfl, fun _ => rfl, fun _ => rfl, rfl,
        fun _ _ _ => rfl, fun _ _ _ => rfl, fun _ _ => rfl⟩
  | cons e r ih =>
      intro idx0 A i hi
      obtain ⟨f1, f2, f3, f4, f5, f6, f7, f8⟩ :=
        ih (idx0 + 1) (writeExample kbd idx0 e A) i (Nat.lt_succ_of_lt hi)
      obtain ⟨w1, w2, w3, w4, w5, w6, w7, w8⟩ :=
        writeExample_frame kbd idx0 e A i (Nat.ne_of_lt hi)
      exact ⟨fun t => (f1 t).trans (w1 t), fun t => (f2 t).trans (w2 t),
        fun t => (f3 t).trans (w3 t), fun t => (f4 t).trans (w4 t),
        f5.trans w5,
        fun sid tid k => (f6 sid tid k).trans (w6 sid tid k),
        fun sid tid k => (f7 sid tid k).trans (w7 sid tid k),
        fun sid tid => (f8 sid tid).trans (w8 sid tid)⟩

/- Column `idx0 + j` of the example loop's result is determined by the
`j`-th example (or untouched when there is none). -/
lemma writeAll_col (kbd : KBDict) :
    ∀ (exs : List Ex) (idx0 j : ℕ) (A : PrepArrays),
      (∀ t, (writeAll kbd idx0 exs A).x t (idx0 + j) =
        if j < exs.length ∧ t < (exs.getD j exDefault).1.length
        then (exs.getD j exDefault).1.getD t 0
        else A.x t (idx0 + j)) ∧
      (∀ t, (writeAll kbd idx0 exs A).x_mask t (idx0 + j) =
        if j < exs.length ∧ t < (exs.getD j exDefault).1.length
        then 1 else A.x_mask t (idx0 + j)) ∧
      (∀ t, (writeAll kbd idx0 exs A).y t (idx0 + j) =
        if j < exs.length ∧ t < (exs.getD j exDefault).2.1.length
        then (exs.getD j exDefault).2.1.getD t 0
        else A.y t (idx0 + j)) ∧
      (∀ t, (writeAll kbd idx0 exs A).y_mask t (idx0 + j) =
        if j < exs.length ∧ t < (exs.getD j exDefault).2.1.length
        then 1 else A.y_mask t (idx0 + j)) ∧
      ((writeAll kbd idx0 exs A).l (idx0 + j) =
        if j < exs.length then (exs.getD j exDefault).2.2.2.2
        else A.l (idx0 + j)) ∧
      (∀ sid tid k, (writeAll kbd idx0 exs A).kb_x sid (idx0 + j) tid k =
        if j < exs.length ∧ sid < (exs.getD j exDefault).2.2.1.length ∧
            tid < (exs.getD j exDefault).2.2.2.1.length ∧
            (kb_lookup kbd ((exs.getD j exDefault).2.2.1.getD sid 0)
              ((exs.getD j exDefault).2.2.2.1.getD tid 0)).isSome
        then ((kb_lookup kbd ((exs.getD j exDefault).2.2.1.getD sid 0)
              ((exs.getD j exDefault).2.2.2.1.getD tid 0)).getD []).getD k 0
        else A.kb_x sid (idx0 + j) tid k) ∧
      (∀ sid tid k, (writeAll kbd idx0 exs A).kb_y sid (idx0 + j) tid k =
        if j < exs.length ∧ sid < (exs.getD j exDefault).2.2.2.1.length ∧
            tid < (exs.getD j exDefault).2.2.1.length ∧
            (kb_lookup kbd ((exs.getD j exDefault).2.2.2.1.getD sid 0)
              ((exs.getD j exDefault).2.2.1.getD tid 0)).isSome
        then ((kb_lookup kbd ((exs.getD j exDefault).2.2.2.1.getD sid 0)
              ((exs.getD j exDefault).2.2.1.getD tid 0)).getD []).getD k 0
        else A.kb_y sid (idx0 + j) tid k) ∧
      (∀ sid tid, (writeAll kbd idx0 exs A).kb_att sid (idx0 + j) tid =
        if j < exs.length ∧ sid < (exs.getD j exDefault).2.2.1.length ∧
            tid < (exs.getD j exDefault).2.2.2.1.length ∧
            (kb_lookup kbd ((exs.getD j exDefault).2.2.1.getD sid 0)
              ((exs.getD j exDefault).2.2.2.1.getD tid 0)).isSome
        then 1 else A.kb_att sid (idx0 + j) tid) := by
  intro exs
  induction exs with
  | nil =>
      intro idx0 j A
      refine ⟨?_, ?_, ?_, ?_, ?_, ?_, ?_, ?_⟩ <;> intros <;>
        simp [writeAll]
  | cons e r ih =>
      intro idx0 j A
      cases j with
      | zero =>
          obtain ⟨f1, f2, f3, f4, f5, f6, f7, f8⟩ :=
            writeAll_frame kbd r (idx0 + 1) (writeExample kbd idx0 e A) idx0
              (Nat.lt_succ_self idx0)
          refine ⟨?_, ?_, ?_, ?_, ?_, ?_, ?_, ?_⟩
          · intro t
            simp only [writeAll, Nat.add_zero, List.getD_cons_zero, List.length_cons]
            rw [f1 t]
            simp [writeExample]
          · intro t
            simp only [writeAll, Nat.add_zero, List.getD_cons_zero, List.length_cons]
            rw [f2 t]
            simp [writeExample]
          · intro t
            simp only [writeAll, Nat.add_zero, List.getD_cons_zero, List.length_cons]
            rw [f3 t]
            simp [writeExample]
          · intro t
            simp only [writeAll, Nat.add_zero, List.getD_cons_zero, List.length_cons]
            rw [f4 t]
            simp [writeExample]
          · simp only [writeAll, Nat.add_zero, List.getD_cons_zero, List.length_cons]
            rw [f5]
            simp [writeExample]
          · intro sid tid k
            simp only [writeAll, Nat.add_zero, List.getD_cons_zero, List.length_cons]
            rw [f6 sid tid k]
            simp [writeExample]
          · intro sid tid k
            simp only [writeAll, Nat.add_zero, List.getD_cons_zero, List.length_cons]
            rw [f7 sid tid k]
            simp [writeExample]
          · intro sid tid
            simp only [writeAll, Nat.add_zero, List.getD_cons_zero, List.length_cons]
            rw [f8 sid tid]
            simp [writeExample]
      | succ j' =>
          obtain ⟨g1, g2, g3, g4, g5, g6, g7, g8⟩ :=
            ih (idx0 + 1) j' (writeExample kbd idx0 e A)
          obtain ⟨w1, w2, w3, w4, w5, w6, w7, w8⟩ :=
            writeExample_frame kbd idx0 e A (idx0 + 1 + j') (by omega)
          have hidx : idx0 + (j' + 1) = idx0 + 1 + j' := by omega
          refine ⟨?_, ?_, ?_, ?_, ?_, ?_, ?_, ?_⟩
          · intro t
            simp only [writeAll, hidx, List.getD_cons_succ, List.length_cons]
            rw [g1 t, w1 t]
            simp [Nat.succ_lt_succ_iff]
          · intro t
            simp only [writeAll, hidx, List.getD_cons_succ, List.length_cons]
            rw [g2 t, w2 t]
            simp [Nat.succ_lt_succ_iff]
          · intro t
            simp only [writeAll, hidx, List.getD_cons_succ, List.length_cons]
            rw [g3 t, w3 t]
            simp [Nat.succ_lt_succ_iff]
          · intro t
            simp only [writeAll, hidx, List.getD_cons_succ, List.length_cons]
            rw [g4 t, w4 t]
            simp [Nat.succ_lt_succ_iff]
          · simp only [writeAll, hidx, List.getD_cons_succ, List.length_cons]
            rw [g5, w5]
            simp [Nat.succ_lt_succ_iff]
          · intro sid tid k
            simp only [writeAll, hidx, List.getD_cons_succ, List.length_cons]
            rw [g6 sid tid k, w6 sid tid k]
            simp [Nat.succ_lt_succ_iff]
          · intro sid tid k
            simp only [writeAll, hidx, List.getD_cons_succ, List.length_cons]
            rw [g7 sid tid k, w7 sid tid k]
            simp [Nat.succ_lt_succ_iff]
          · intro sid tid
            simp only [writeAll, hidx, List.getD_cons_succ, List.length_cons]
            rw [g8 sid tid, w8 sid tid]
            simp [Nat.succ_lt_succ_iff]

/- Pointwise description of every array of `prep_arrays` at an in-range
column, over five equal-length input lists. -/
lemma prep_arrays_col (sx sy sxl syl : List (List ℤ)) (labels : List ℤ)
    (kbd : KBDict) (n i : ℕ)
    (hsx : sx.length = n) (hsy : sy.length = n) (hxl : sxl.length = n)
    (hyl : syl.length = n) (hlb : labels.length = n) (hi : i < n) :
    (∀ t, (prep_arrays sx sy sxl syl labels kbd).x t i =
      if t < (sx.getD i []).length then (sx.getD i []).getD t 0 else 0) ∧
    (∀ t, (prep_arrays sx sy sxl syl labels kbd).x_mask t i =
      if t < (sx.getD i []).length then 1 else 0) ∧
    (∀ t, (prep_arrays sx sy sxl syl labels kbd).y t i =
      if t < (sy.getD i []).length then (sy.getD i []).getD t 0 else 0) ∧
    (∀ t, (prep_arrays sx sy sxl syl labels kbd).y_mask t i =
      if t < (sy.getD i []).length then 1 else 0) ∧
    ((prep_arrays sx sy sxl syl labels kbd).l i = labels.getD i 0) ∧
    (∀ sid tid k, (prep_arrays sx sy sxl syl labels kbd).kb_x sid i tid k =
      if sid < (sxl.getD i []).length ∧ tid < (syl.getD i []).length ∧
          (kb_lookup kbd ((sxl.getD i []).getD sid 0)
            ((syl.getD i []).getD tid 0)).isSome
      then ((kb_lookup kbd ((sxl.getD i []).getD sid 0)
            ((syl.getD i []).getD tid 0)).getD []).getD k 0
      else 0) ∧
    (∀ sid tid k, (prep_arrays sx sy sxl syl labels kbd).kb_y sid i tid k =
      if sid < (syl.getD i []).length ∧ tid < (sxl.getD i []).length ∧
          (kb_lookup kbd ((syl.getD i []).getD sid 0)
            ((sxl.getD i []).getD tid 0)).isSome
      then ((kb_lookup kbd ((syl.getD i []).getD sid 0)
            ((sxl.getD i []).getD tid 0)).getD []).getD k 0
      else 0) ∧
    (∀ sid tid, (prep_arrays sx sy sxl syl labels kbd).kb_att sid i tid =
      if sid < (sxl.getD i []).length ∧ tid < (syl.getD i []).length ∧
          (kb_lookup kbd ((sxl.getD i []).getD sid 0)
            ((syl.getD i []).getD tid 0)).isSome
      then 1 else 0) := by
  have hlen := zip5_length sx sy sxl syl labels n hsx hsy hxl hyl hlb
  have hget := zip5_getD sx sy sxl syl labels i
    (by rw [hsx]; exact hi) (by rw [hsy]; exact hi) (by rw [hxl]; exact hi)
    (by rw [hyl]; exact hi) (by rw [hlb]; exact hi)
  have hin : i < (zip5 sx sy sxl syl labels).length := by rw [hlen]; exact hi
  obtain ⟨c1, c2, c3, c4, c5, c6, c7, c8⟩ :=
    writeAll_col kbd (zip5 sx sy sxl syl labels) 0 i zeroArrays
  refine ⟨?_, ?_, ?_, ?_, ?_, ?_, ?_, ?_⟩
  · intro t
    have h := c1 t
    rw [Nat.zero_add] at h
    rw [show (prep_arrays sx sy sxl syl labels kbd).x t i =
      (writeAll kbd 0 (zip5 sx sy sxl syl labels) zeroArrays).x t i from rfl, h, hget]
    simp [hin, zeroArrays]
  · intro t
    have h := c2 t
    rw [Nat.zero_add] at h
    rw [show (prep_arrays sx sy sxl syl labels kbd).x_mask t i =
      (writeAll kbd 0 (zip5 sx sy sxl syl labels) zeroArrays).x_mask t i from rfl, h, hget]
    simp [hin, zeroArrays]
  · intro t
    have h := c3 t
    rw [Nat.zero_add] at h
    rw [show (prep_arrays sx sy sxl syl labels kbd).y t i =
      (writeAll kbd 0 (zip5 sx sy sxl syl labels) zeroArrays).y t i from rfl, h, hget]
    simp [hin, zeroArrays]
  · intro t
    have h := c4 t
    rw [Nat.zero_add] at h
    rw [show (prep_arrays sx sy sxl syl labels kbd).y_mask t i =
      (writeAll kbd 0 (zip5 sx sy sxl syl labels) zeroArrays).y_mask t i from rfl, h, hget]
    simp [hin, zeroArrays]
  · have h := c5
    rw [Nat.zero_add] at h
    rw [show (prep_arrays sx sy sxl syl labels kbd).l i =
      (writeAll kbd 0 (zip5 sx sy sxl syl labels) zeroArrays).l i from rfl, h, hget]
    simp [hin]
  · intro sid tid k
    have h := c6 sid tid k
    rw [Nat.zero_add] at h
    rw [show (prep_arrays sx sy sxl syl labels kbd).kb_x sid i tid k =
      (writeAll kbd 0 (zip5 sx sy sxl syl labels) zeroArrays).kb_x sid i tid k
      from rfl, h, hget]
    simp [hin, zeroArrays]
  · intro sid tid k
    have h := c7 sid tid k
    rw [Nat.zero_add] at h
    rw [show (prep_arrays sx sy sxl syl labels kbd).kb_y sid i tid k =
      (writeAll kbd 0 (zip5 sx sy sxl syl labels) zeroArrays).kb_y sid i tid k
      from rfl, h, hget]
    simp [hin, zeroArrays]
  · intro sid tid
    have h := c8 sid tid
    rw [Nat.zero_add] at h
    rw [show (prep_arrays sx sy sxl syl labels kbd).kb_att sid i tid =
      (writeAll kbd 0 (zip5 sx sy sxl syl labels) zeroArrays).kb_att sid i tid
      from rfl, h, hget]
    simp [hin, zeroArrays]

/- When every premise/hypothesis pair passes the length filter, the
filter keeps the whole batch. -/
lemma filter_keep_all (m : ℕ) :
    ∀ (sx sy : List (List ℤ)), sx.length = sy.length →
      (∀ i, i < sx.length →
        (sx.getD i []).length < m ∧ (sy.getD i []).length < m) →
      ((sx.zip sy).filter fun p => decide (p.1.length < m ∧ p.2.length < m))
        = sx.zip sy := by
  intro sx
  induction sx with
  | nil => intro sy _ _; rfl
  | cons a as_ ih =>
      intro sy hl hall
      cases sy with
      | nil => simp at hl
      | cons b bs =>
          have hhead := hall 0 (by simp)
          have htail : ∀ i, i < as_.length →
              (as_.getD i []).length < m ∧ (bs.getD i []).length < m := by
            intro i hi
            have := hall (i + 1) (by simpa using Nat.succ_lt_succ hi)
            simpa using this
          simp only [List.zip_cons_cons, List.filter_cons]
          rw [if_pos (by simpa using hhead)]
          rw [ih bs (by simpa using hl) htail]

/-- Claim C1: on a batch of parallel sequences that all pass the
`maxlen` filter, `prepare_data` returns the full 8-tuple of arrays, each
mask column holds exactly the example's true length of leading ones
followed by zeros, the id matrices are zero beyond the true lengths, and
the knowledge tensors `kb_x`, `kb_y` and the presence matrix `kb_att`
are zero at any position beyond either sequence's true length. -/
theorem prepare_data_padding (sx sy sxl syl : List (List ℤ)) (labels : List ℤ)
    (dim_kb : ℕ) (kbd : KBDict) (m n : ℕ)
    (hsx : sx.length = n) (hsy : sy.length = n) (hxl : sxl.length = n)
    (hyl : syl.length = n) (hlb : labels.length = n) (hn : 0 < n)
    (hpass : ∀ i, i < n →
      (sx.getD i []).length < m ∧ (sy.getD i []).length < m)
    (hpar : ∀ i, i < n →
      (sxl.getD i []).length = (sx.getD i []).length ∧
      (syl.getD i []).length = (sy.getD i []).length) :
    prepare_data sx sy sxl syl labels dim_kb kbd (some m) =
      batchList (prep_arrays sx sy sxl syl labels kbd) ∧
    (∀ i, i < n →
      (∀ t, t < (sx.getD i []).length →
        (prep_arrays sx sy sxl syl labels kbd).x_mask t i = 1) ∧
      (∀ t, (sx.getD i []).length ≤ t →
        (prep_arrays sx sy sxl syl labels kbd).x_mask t i = 0 ∧
        (prep_arrays sx sy sxl syl labels kbd).x t i = 0) ∧
      (∀ t, t < (sy.getD i []).length →
        (prep_arrays sx sy sxl syl labels kbd).y_mask t i = 1) ∧
      (∀ t, (sy.getD i []).length ≤ t →
        (prep_arrays sx sy sxl syl labels kbd).y_mask t i = 0 ∧
        (prep_arrays sx sy sxl syl labels kbd).y t i = 0) ∧
      (∀ sid tid k, (sx.getD i []).length ≤ sid ∨ (sy.getD i []).length ≤ tid →
        (prep_arrays sx sy sxl syl labels kbd).kb_x sid i tid k = 0 ∧
        (prep_arrays sx sy sxl syl labels kbd).kb_att sid i tid = 0) ∧
      (∀ sid tid k, (sy.getD i []).length ≤ sid ∨ (sx.getD i []).length ≤ tid →
        (prep_arrays sx sy sxl syl labels kbd).kb_y sid i tid k = 0)) := by
  constructor
  · have hkeep := filter_keep_all m sx sy (hsx.trans hsy.symm)
      (by rw [hsx]; exact hpass)
    have hfst : (sx.zip sy).map Prod.fst = sx :=
      List.map_fst_zip sx sy (by omega)
    have hsnd : (sx.zip sy).map Prod.snd = sy :=
      List.map_snd_zip sx sy (by omega)
    simp only [prepare_data, hkeep, hfst, hsnd]
    rw [if_neg (by omega)]
  · intro i hi
    obtain ⟨c1, c2, c3, c4, _, c6, c7, c8⟩ :=
      prep_arrays_col sx sy sxl syl labels kbd n i hsx hsy hxl hyl hlb hi
    refine ⟨?_, ?_, ?_, ?_, ?_, ?_⟩
    · intro t ht
      rw [c2 t, if_pos ht]
    · intro t ht
      rw [c2 t, if_neg (by omega), c1 t, if_neg (by omega)]
      exact ⟨rfl, rfl⟩
    · intro t ht
      rw [c4 t, if_pos ht]
    · intro t ht
      rw [c4 t, if_neg (by omega), c3 t, if_neg (by omega)]
      exact ⟨rfl, rfl⟩
    · intro sid tid k hout
      have hxlen := (hpar i hi).1
      have hylen := (hpar i hi).2
      constructor
      · rw [c6 sid tid k, if_neg (by rw [hxlen, hylen]; omega)]
      · rw [c8 sid tid, if_neg (by rw [hxlen, hylen]; omega)]
    · intro sid tid k hout
      have hxlen := (hpar i hi).1
      have hylen := (hpar i hi).2
      rw [c7 sid tid k, if_neg (by rw [hxlen, hylen]; omega)]

/-- Claim C1 witness: a two-example batch with premise lengths 1 and 2,
hypothesis lengths 2 and 1, parallel lemma sequences, and `maxlen = 3`. -/
theorem prepare_data_padding_witness :
    prepare_data [[5], [6, 7]] [[8, 9], [10]] [[1], [3, 4]] [[2, 3], [2]]
        [1, 0] 4 fwdKbd (some 3) =
      batchList (prep_arrays [[5], [6, 7]] [[8, 9], [10]] [[1], [3, 4]]
        [[2, 3], [2]] [1, 0] fwdKbd) ∧
    (∀ i, i < 2 →
      (∀ t, t < (([[5], [6, 7]] : List (List ℤ)).getD i []).length →
        (prep_arrays [[5], [6, 7]] [[8, 9], [10]] [[1], [3, 4]] [[2, 3], [2]]
          [1, 0] fwdKbd).x_mask t i = 1) ∧
      (∀ t, (([[5], [6, 7]] : List (List ℤ)).getD i []).length ≤ t →
        (prep_arrays [[5], [6, 7]] [[8, 9], [10]] [[1], [3, 4]] [[2, 3], [2]]
          [1, 0] fwdKbd).x_mask t i = 0 ∧
        (prep_arrays [[5], [6, 7]] [[8, 9], [10]] [[1], [3, 4]] [[2, 3], [2]]
          [1, 0] fwdKbd).x t i = 0) ∧
      (∀ t, t < (([[8, 9], [10]] : List (List ℤ)).getD i []).length →
        (prep_arrays [[5], [6, 7]] [[8, 9], [10]] [[1], [3, 4]] [[2, 3], [2]]
          [1, 0] fwdKbd).y_mask t i = 1) ∧
      (∀ t, (([[8, 9], [10]] : List (List ℤ)).getD i []).length ≤ t →
        (prep_arrays [[5], [6, 7]] [[8, 9], [10]] [[1], [3, 4]] [[2, 3], [2]]
          [1, 0] fwdKbd).y_mask t i = 0 ∧
        (prep_arrays [[5], [6, 7]] [[8, 9], [10]] [[1], [3, 4]] [[2, 3], [2]]
          [1, 0] fwdKbd).y t i = 0) ∧
      (∀ sid tid k, (([[5], [6, 7]] : List (List ℤ)).getD i []).length ≤ sid ∨
          (([[8, 9], [10]] : List (List ℤ)).getD i []).length ≤ tid →
        (prep_arrays [[5], [6, 7]] [[8, 9], [10]] [[1], [3, 4]] [[2, 3], [2]]
          [1, 0] fwdKbd).kb_x sid i tid k = 0 ∧
        (prep_arrays [[5], [6, 7]] [[8, 9], [10]] [[1], [3, 4]] [[2, 3], [2]]
          [1, 0] fwdKbd).kb_att sid i tid = 0) ∧
      (∀ sid tid k, (([[8, 9], [10]] : List (List ℤ)).getD i []).length ≤ sid ∨
          (([[5], [6, 7]] : List (List ℤ)).getD i []).length ≤ tid →
        (prep_arrays [[5], [6, 7]] [[8, 9], [10]] [[1], [3, 4]] [[2, 3], [2]]
          [1, 0] fwdKbd).kb_y sid i tid k = 0)) :=
  prepare_data_padding [[5], [6, 7]] [[8, 9], [10]] [[1], [3, 4]] [[2, 3], [2]]
    [1, 0] 4 fwdKbd 3 2 rfl rfl rfl rfl rfl (by decide)
    (by decide) (by decide)

/-- Claim C10: `kb_att[sid, i, tid]` is 1 exactly when the premise lemma
at `sid` maps to the hypothesis lemma at `tid` in the knowledge table
(the directed premise-to-hypothesis lookup that also fills `kb_x`);
`kb_att` is 0/1-valued, and the reverse-direction lookup fills only
`kb_y`, so a relation present only in the hypothesis-to-premise
direction leaves `kb_att` at 0. -/
theorem kb_att_directed (sx sy sxl syl : List (List ℤ)) (labels : List ℤ)
    (kbd : KBDict) (n i : ℕ)
    (hsx : sx.length = n) (hsy : sy.length = n) (hxl : sxl.length = n)
    (hyl : syl.length = n) (hlb : labels.length = n) (hi : i < n) :
    (∀ sid tid,
      ((prep_arrays sx sy sxl syl labels kbd).kb_att sid i tid = 1 ↔
        sid < (sxl.getD i []).length ∧ tid < (syl.getD i []).length ∧
          (kb_lookup kbd ((sxl.getD i []).getD sid 0)
            ((syl.getD i []).getD tid 0)).isSome)) ∧
    (∀ sid tid, (prep_arrays sx sy sxl syl labels kbd).kb_att sid i tid = 1 ∨
      (prep_arrays sx sy sxl syl labels kbd).kb_att sid i tid = 0) ∧
    (∀ sid tid k, (prep_arrays sx sy sxl syl labels kbd).kb_y sid i tid k =
      if sid < (syl.getD i []).length ∧ tid < (sxl.getD i []).length ∧
          (kb_lookup kbd ((syl.getD i []).getD sid 0)
            ((sxl.getD i []).getD tid 0)).isSome
      then ((kb_lookup kbd ((syl.getD i []).getD sid 0)
            ((sxl.getD i []).getD tid 0)).getD []).getD k 0
      else 0) := by
  obtain ⟨_, _, _, _, _, _, c7, c8⟩ :=
    prep_arrays_col sx sy sxl syl labels kbd n i hsx hsy hxl hyl hlb hi
  refine ⟨?_, ?_, c7⟩
  · intro sid tid
    rw [c8 sid tid]
    split_ifs with hcond
    · exact ⟨fun _ => hcond, fun _ => rfl⟩
    · exact ⟨fun h => absurd h (by norm_num), fun h => absurd h hcond⟩
  · intro sid tid
    rw [c8 sid tid]
    split_ifs
    · left; rfl
    · right; rfl

/-- Claim C10 witness: one example whose knowledge table holds only the
reverse (hypothesis-to-premise) relation `2 → 1`; the theorem instance
in particular forces `kb_att = 0` everywhere. -/
theorem kb_att_directed_witness :
    (∀ sid tid,
      ((prep_arrays [[5]] [[6]] [[1]] [[2]] [0] revKbd).kb_att sid 0 tid = 1 ↔
        sid < (([[1]] : List (List ℤ)).getD 0 []).length ∧
          tid < (([[2]] : List (List ℤ)).getD 0 []).length ∧
          (kb_lookup revKbd ((([[1]] : List (List ℤ)).getD 0 []).getD sid 0)
            ((([[2]] : List (List ℤ)).getD 0 []).getD tid 0)).isSome)) ∧
    (∀ sid tid,
      (prep_arrays [[5]] [[6]] [[1]] [[2]] [0] revKbd).kb_att sid 0 tid = 1 ∨
      (prep_arrays [[5]] [[6]] [[1]] [[2]] [0] revKbd).kb_att sid 0 tid = 0) ∧
    (∀ sid tid k,
      (prep_arrays [[5]] [[6]] [[1]] [[2]] [0] revKbd).kb_y sid 0 tid k =
      if sid < (([[2]] : List (List ℤ)).getD 0 []).length ∧
          tid < (([[1]] : List (List ℤ)).getD 0 []).length ∧
          (kb_lookup revKbd ((([[2]] : List (List ℤ)).getD 0 []).getD sid 0)
            ((([[1]] : List (List ℤ)).getD 0 []).getD tid 0)).isSome
      then ((kb_lookup revKbd ((([[2]] : List (List ℤ)).getD 0 []).getD sid 0)
            ((([[1]] : List (List ℤ)).getD 0 []).getD tid 0)).getD []).getD k 0
      else 0) :=
  kb_att_directed [[5]] [[6]] [[1]] [[2]] [0] revKbd 1 0
    rfl rfl rfl rfl rfl (by decide)

/-- Claim C3 (the code bug it reports): a batch in which every example is
filtered out by `maxlen` makes `prepare_data` return the 7-element
sentinel tuple, but the training loop destructures the result into 8
variables, so the unpack raises a `ValueError` — the `if x1 is None`
skip-and-decrement path is unreachable for this sentinel. -/
theorem empty_batch_sentinel_crash :
    prepare_data [[1]] [[2]] [[1]] [[2]] [0] 5 (fun _ => none) (some 1) =
      [PyVal.none, PyVal.none, PyVal.none, PyVal.none, PyVal.none,
        PyVal.none, PyVal.none] ∧
    (prepare_data [[1]] [[2]] [[1]] [[2]] [0] 5 (fun _ => none) (some 1)).length
      = 7 ∧
    train_batch_step 5
        (prepare_data [[1]] [[2]] [[1]] [[2]] [0] 5 (fun _ => none) (some 1)) =
      TrainBatchOutcome.valueError :=
  ⟨rfl, rfl, rfl⟩

/-- Claim C6 witness: patience 1, one prior best error 1/2, two
worsening checks — two halvings, then early stop with the snapshot
restored. -/
theorem early_stop_after_patience_witness :
    (runValid 1 egChecks egTrainState).estop = true ∧
    (runValid 1 egChecks egTrainState).bad_counter = 1 + 1 ∧
    (runValid 1 egChecks egTrainState).lrate
        = egTrainState.lrate * (1 / 2) ^ (1 + 1) ∧
    (runValid 1 egChecks egTrainState).lr_change_list
        = egTrainState.lr_change_list ++ egChecks.map (fun c => c.2.1) ∧
    (runValid 1 egChecks egTrainState).lr_change_list.length
        = egTrainState.lr_change_list.length + (1 + 1) ∧
    (runValid 1 egChecks egTrainState).tparams = 7 :=
  early_stop_after_patience 1 7 egChecks egTrainState rfl rfl rfl rfl
    (by simp [egTrainState])
    (by
      intro c hc
      simp only [egChecks, List.mem_cons, List.not_mem_nil, or_false] at hc
      rcases hc with rfl | rfl <;>
        exact ⟨by norm_num, by norm_num [egTrainState, listMin]⟩)
    rfl

end KIM
